import Mathlib

/-!
Verification of the adaptive ODE integrator `pynamic_ode` (src/pynamic.py).

The integrator is embedded shallowly: the real numbers of the program are
modelled by `ℚ`, numpy vectors by `List ℚ`, the caller-supplied derivative
and end-condition callbacks by Lean functions in the configuration record,
and the while loop by a fuel-indexed iteration `runLoop` of the loop body
`loopBody`.  Each definition is transcribed from the corresponding lines of
`pynamic_ode` in src/pynamic.py.
-/

namespace Pyn

attribute [local semireducible] Rat.add Rat.sub Rat.mul Rat.inv

/-- Elementwise sum of two vectors (numpy array addition). -/
def vadd (a b : List ℚ) : List ℚ := List.zipWith (· + ·) a b

/-- Scalar multiple of a vector (numpy scalar broadcasting). -/
def smul (c : ℚ) (v : List ℚ) : List ℚ := v.map (fun x => c * x)

/-- The inputs of one `pynamic_ode` invocation (the parameter list of the
Python function, lines 8-11). -/
structure PynConfig where
  func : ℚ → List ℚ → List ℚ
  start_time : ℚ
  max_time : ℚ
  initial_val : List ℚ
  param_to_monitor : ℕ
  max_param_delta : ℚ
  base_time_step : ℚ
  min_step_time : ℚ
  end_condition : ℚ → List ℚ → List ℚ → ℤ
  use_rk4 : Bool

/-- The local variables of `pynamic_ode` that are live across loop
iterations (lines 72-88). -/
structure PynState where
  y_cur : List ℚ
  y_old : List ℚ
  times : List ℚ
  y_vals : List (List ℚ)
  current_time : ℚ
  cur_step_size : ℚ
  next_relax : ℚ
  end_cond_val : Bool
  status : ℤ
  not_failed : Bool

/-- Doubling of the step size capped at the base step (lines 101-104). -/
def dblCap (cfg : PynConfig) (c : ℚ) : ℚ :=
  if cfg.base_time_step < c * 2 then cfg.base_time_step else c * 2

/-- Halving of the step size floored at the minimum step (lines 150-152). -/
def hlvFloor (cfg : PynConfig) (c : ℚ) : ℚ :=
  if c / 2 < cfg.min_step_time then cfg.min_step_time else c / 2

/-- The relaxation check (lines 98-104).  Returns the step size used for the
current iteration together with the updated `next_relax` marker. -/
def relaxPair (cfg : PynConfig) (s : PynState) : ℚ × ℚ :=
  if s.cur_step_size < cfg.base_time_step ∧ s.next_relax ≤ s.current_time then
    (dblCap cfg s.cur_step_size, -1)
  else (s.cur_step_size, s.next_relax)

/-- The combined derivative used for a candidate step of size `h` from state
`y`: lines 110-129.  The first derivative call (line 110) always happens and
becomes `k1` of the RK4 stage scheme when `use_rk4` is set. -/
def combinedDeriv (cfg : PynConfig) (h : ℚ) (y : List ℚ) : List ℚ :=
  let deltas := cfg.func h y
  if cfg.use_rk4 then
    let rk4_k1 := deltas
    let y_for_k2 := vadd y (smul (h / 2) rk4_k1)
    let rk4_k2 := cfg.func (h / 2) y_for_k2
    let y_for_k3 := vadd y (smul (h / 2) rk4_k2)
    let rk4_k3 := cfg.func (h / 2) y_for_k3
    let y_for_k4 := vadd y (smul h rk4_k3)
    let rk4_k4 := cfg.func h y_for_k4
    (vadd (vadd (vadd rk4_k1 (smul 2 rk4_k2)) (smul 2 rk4_k3)) rk4_k4).map (fun x => x / 6)
  else deltas

/-- The candidate new state for a step of size `h` from `y` (line 132). -/
def yCandidate (cfg : PynConfig) (h : ℚ) (y : List ℚ) : List ℚ :=
  vadd y (smul h (combinedDeriv cfg h y))

/-- Core of the acceptance test of lines 138-140, on the two monitored
values: `true` when `denom_val` is nonzero and the relative change exceeds
the threshold `δ`. -/
def rejTestQ (δ mc mn : ℚ) : Bool :=
  let denom_val := if mn ≠ 0 then mn else mc
  decide (denom_val ≠ 0 ∧ δ < |mn - mc| / denom_val)

/-- The acceptance test of lines 138-140: `true` when the step is rejected,
i.e. when `denom_val` is nonzero and the relative change of the monitored
component exceeds `max_param_delta`. -/
def rejTest (cfg : PynConfig) (y : List ℚ) (h : ℚ) : Bool :=
  rejTestQ cfg.max_param_delta (y.getD cfg.param_to_monitor 0)
    ((yCandidate cfg h y).getD cfg.param_to_monitor 0)

/-- One iteration of the while-loop body (lines 91-163). -/
def loopBody (cfg : PynConfig) (s : PynState) : PynState :=
  let end_val := cfg.end_condition s.current_time s.y_cur s.y_old
  if end_val ≠ 0 then
    { s with y_old := s.y_cur, end_cond_val := false, status := |end_val| }
  else
    let h := (relaxPair cfg s).1
    let nr := (relaxPair cfg s).2
    if rejTest cfg s.y_cur h then
      if h = cfg.min_step_time then
        { s with y_old := s.y_cur, cur_step_size := h, next_relax := nr,
                 not_failed := false, status := -1 }
      else
        { s with y_old := s.y_cur, cur_step_size := hlvFloor cfg h,
                 next_relax := if nr < 0 then s.current_time + cfg.base_time_step else nr }
    else
      { s with y_old := s.y_cur,
               current_time := s.current_time + h,
               y_vals := s.y_vals ++ [yCandidate cfg h s.y_cur],
               times := s.times ++ [s.current_time + h],
               y_cur := yCandidate cfg h s.y_cur,
               cur_step_size := h,
               next_relax := nr }

/-- The state right before the while loop (lines 72-88), trajectory already
seeded with the initial point. -/
def initState (cfg : PynConfig) : PynState where
  y_cur := cfg.initial_val
  y_old := List.replicate cfg.initial_val.length 0
  times := [cfg.start_time]
  y_vals := [cfg.initial_val]
  current_time := cfg.start_time
  cur_step_size := cfg.base_time_step
  next_relax := -1
  end_cond_val := true
  status := 0
  not_failed := true

/-- The while-loop guard of line 90. -/
def loopGuard (cfg : PynConfig) (s : PynState) : Bool :=
  decide (s.current_time < cfg.max_time) && s.end_cond_val && s.not_failed

/-- Fuel-indexed iteration of the loop body while the guard holds. -/
def runLoop (cfg : PynConfig) : ℕ → PynState → PynState
  | 0, s => s
  | n + 1, s => if loopGuard cfg s then runLoop cfg n (loopBody cfg s) else s

/-- The whole routine: iterate the loop from the seeded state and return
`(times, y_vals, status)` (line 165). -/
def pynamic_ode (cfg : PynConfig) (fuel : ℕ) : List ℚ × List (List ℚ) × ℤ :=
  let s := runLoop cfg fuel (initState cfg)
  (s.times, s.y_vals, s.status)

/-! ### Basic lemmas about the loop iteration -/

theorem runLoop_succ (cfg : PynConfig) (n : ℕ) (s : PynState) :
    runLoop cfg (n + 1) s =
      if loopGuard cfg s then runLoop cfg n (loopBody cfg s) else s := rfl

theorem runLoop_of_guard_false {cfg : PynConfig} {s : PynState}
    (h : loopGuard cfg s = false) : ∀ n, runLoop cfg n s = s := by
  intro n
  cases n with
  | zero => rfl
  | succ n => simp [runLoop, h]

theorem runLoop_add (cfg : PynConfig) (m n : ℕ) (s : PynState) :
    runLoop cfg (m + n) s = runLoop cfg n (runLoop cfg m s) := by
  induction m generalizing s with
  | zero => simp [runLoop]
  | succ m ih =>
      by_cases hg : loopGuard cfg s
      · have : m + 1 + n = (m + n) + 1 := by omega
        rw [this, runLoop_succ, if_pos hg, runLoop_succ, if_pos hg, ih]
      · have hg' : loopGuard cfg s = false := by simpa using hg
        rw [runLoop_of_guard_false hg', runLoop_of_guard_false hg',
          runLoop_of_guard_false hg']

/-- Invariants preserved by the loop body are preserved by any number of
iterations. -/
theorem runLoop_inv {cfg : PynConfig} {P : PynState → Prop}
    (hP : ∀ s, P s → P (loopBody cfg s)) :
    ∀ n s, P s → P (runLoop cfg n s) := by
  intro n
  induction n with
  | zero => intro s hs; exact hs
  | succ n ih =>
      intro s hs
      rw [runLoop_succ]
      by_cases hg : loopGuard cfg s
      · rw [if_pos hg]; exact ih _ (hP s hs)
      · rw [if_neg hg]; exact hs

/-! ### Case lemmas for the loop body -/

theorem loopBody_end {cfg : PynConfig} {s : PynState}
    (h : cfg.end_condition s.current_time s.y_cur s.y_old ≠ 0) :
    loopBody cfg s =
      { s with y_old := s.y_cur, end_cond_val := false,
               status := |cfg.end_condition s.current_time s.y_cur s.y_old| } := by
  simp [loopBody, h]

theorem loopBody_fail {cfg : PynConfig} {s : PynState}
    (h0 : cfg.end_condition s.current_time s.y_cur s.y_old = 0)
    (hr : rejTest cfg s.y_cur (relaxPair cfg s).1 = true)
    (hm : (relaxPair cfg s).1 = cfg.min_step_time) :
    loopBody cfg s =
      { s with y_old := s.y_cur, cur_step_size := (relaxPair cfg s).1,
               next_relax := (relaxPair cfg s).2, not_failed := false, status := -1 } := by
  have hr' : rejTest cfg s.y_cur cfg.min_step_time = true := hm ▸ hr
  simp [loopBody, h0, hr, hr', hm]

theorem loopBody_halve {cfg : PynConfig} {s : PynState}
    (h0 : cfg.end_condition s.current_time s.y_cur s.y_old = 0)
    (hr : rejTest cfg s.y_cur (relaxPair cfg s).1 = true)
    (hm : (relaxPair cfg s).1 ≠ cfg.min_step_time) :
    loopBody cfg s =
      { s with y_old := s.y_cur,
               cur_step_size := hlvFloor cfg (relaxPair cfg s).1,
               next_relax := if (relaxPair cfg s).2 < 0 then
                 s.current_time + cfg.base_time_step else (relaxPair cfg s).2 } := by
  simp [loopBody, h0, hr, hm]

theorem loopBody_accept {cfg : PynConfig} {s : PynState}
    (h0 : cfg.end_condition s.current_time s.y_cur s.y_old = 0)
    (hr : rejTest cfg s.y_cur (relaxPair cfg s).1 = false) :
    loopBody cfg s =
      { s with y_old := s.y_cur,
               current_time := s.current_time + (relaxPair cfg s).1,
               y_vals := s.y_vals ++ [yCandidate cfg (relaxPair cfg s).1 s.y_cur],
               times := s.times ++ [s.current_time + (relaxPair cfg s).1],
               y_cur := yCandidate cfg (relaxPair cfg s).1 s.y_cur,
               cur_step_size := (relaxPair cfg s).1,
               next_relax := (relaxPair cfg s).2 } := by
  simp [loopBody, h0, hr]

theorem loopGuard_eq_true {cfg : PynConfig} {s : PynState} :
    loopGuard cfg s = true ↔
      s.current_time < cfg.max_time ∧ s.end_cond_val = true ∧ s.not_failed = true := by
  simp [loopGuard, Bool.and_eq_true, decide_eq_true_eq, and_assoc]

theorem loopGuard_false_of_end_cond {cfg : PynConfig} {s : PynState}
    (h : s.end_cond_val = false) : loopGuard cfg s = false := by
  simp [loopGuard, h]

theorem loopGuard_false_of_failed {cfg : PynConfig} {s : PynState}
    (h : s.not_failed = false) : loopGuard cfg s = false := by
  simp [loopGuard, h]

/-! ### Concrete example configurations (used by counterexamples and
witnesses) -/

/-- Example configuration: constant derivative 1, first-order scheme. -/
def exCfgB : PynConfig where
  func := fun _ _ => [1]
  start_time := 0
  max_time := 10
  initial_val := [1]
  param_to_monitor := 0
  max_param_delta := 1 / 2
  base_time_step := 4
  min_step_time := 1
  end_condition := fun _ _ _ => 0
  use_rk4 := false

/-- Example configuration: derivative proportional to the state, first-order
scheme. -/
def exCfgA : PynConfig where
  func := fun _ y => [y.getD 0 0]
  start_time := 0
  max_time := 10
  initial_val := [1]
  param_to_monitor := 0
  max_param_delta := 1 / 4
  base_time_step := 1
  min_step_time := 1 / 4
  end_condition := fun _ _ _ => 0
  use_rk4 := false

/-- Example configuration whose end condition fires immediately with
signal 5. -/
def exCfgE : PynConfig where
  func := fun _ _ => [1]
  start_time := 0
  max_time := 1
  initial_val := [1]
  param_to_monitor := 0
  max_param_delta := 1 / 2
  base_time_step := 1
  min_step_time := 1 / 2
  end_condition := fun _ _ _ => 5
  use_rk4 := true

/-! ### The acceptance predicate as the specification words it -/

/-- Acceptance of a step whose monitored component moves from `mc` to `mn`,
written from the spec: the relative change is the absolute difference divided
by `mn` unless that is exactly zero, in which case `mc` is used; when both
are exactly zero the step is accepted unconditionally. -/
def specAcceptQ (δ mc mn : ℚ) : Prop :=
  (mn = 0 ∧ mc = 0) ∨ |mn - mc| / (if mn ≠ 0 then mn else mc) ≤ δ

/-- Acceptance as the spec words it, at the threshold of a configuration. -/
def specAccept (cfg : PynConfig) (mc mn : ℚ) : Prop :=
  specAcceptQ cfg.max_param_delta mc mn

theorem rejTestQ_eq_false_iff (δ mc mn : ℚ) :
    rejTestQ δ mc mn = false ↔ specAcceptQ δ mc mn := by
  by_cases hmn : mn = 0 <;> by_cases hmc : mc = 0 <;>
    simp [rejTestQ, specAcceptQ, hmn, hmc, not_lt]

theorem rejTest_eq_false_iff (cfg : PynConfig) (y : List ℚ) (h : ℚ) :
    rejTest cfg y h = false ↔
      specAccept cfg (y.getD cfg.param_to_monitor 0)
        ((yCandidate cfg h y).getD cfg.param_to_monitor 0) :=
  rejTestQ_eq_false_iff cfg.max_param_delta _ _


/-! ### Claim C5 -/

/-- C5: if `end_condition` returns a nonzero value `s` at some loop
iteration, `pynamic_ode` stops and returns `status = abs s` (a positive
value), and that final iteration leaves the trajectory, the current time and
the current state unchanged. -/
theorem c5_end_condition_stop (cfg : PynConfig) (s : PynState)
    (hg : loopGuard cfg s = true)
    (he : cfg.end_condition s.current_time s.y_cur s.y_old ≠ 0) :
    (∀ n, runLoop cfg (n + 1) s = loopBody cfg s) ∧
    (loopBody cfg s).status = |cfg.end_condition s.current_time s.y_cur s.y_old| ∧
    0 < (loopBody cfg s).status ∧
    (loopBody cfg s).times = s.times ∧
    (loopBody cfg s).y_vals = s.y_vals ∧
    (loopBody cfg s).current_time = s.current_time ∧
    (loopBody cfg s).y_cur = s.y_cur := by
  have hb := loopBody_end he
  have hgf : loopGuard cfg (loopBody cfg s) = false := by
    apply loopGuard_false_of_end_cond; rw [hb]
  refine ⟨?_, ?_, ?_, ?_, ?_, ?_, ?_⟩
  · intro n; rw [runLoop_succ, if_pos hg, runLoop_of_guard_false hgf]
  · rw [hb]
  · rw [hb]; exact abs_pos.mpr he
  · rw [hb]
  · rw [hb]
  · rw [hb]
  · rw [hb]

/-- Witness for C5 at the concrete configuration `exCfgE`, whose end
condition returns 5 at the very first iteration. -/
theorem c5_end_condition_stop_witness :
    (∀ n, runLoop exCfgE (n + 1) (initState exCfgE) = loopBody exCfgE (initState exCfgE)) ∧
    (loopBody exCfgE (initState exCfgE)).status =
      |exCfgE.end_condition (initState exCfgE).current_time (initState exCfgE).y_cur
        (initState exCfgE).y_old| ∧
    0 < (loopBody exCfgE (initState exCfgE)).status ∧
    (loopBody exCfgE (initState exCfgE)).times = (initState exCfgE).times ∧
    (loopBody exCfgE (initState exCfgE)).y_vals = (initState exCfgE).y_vals ∧
    (loopBody exCfgE (initState exCfgE)).current_time = (initState exCfgE).current_time ∧
    (loopBody exCfgE (initState exCfgE)).y_cur = (initState exCfgE).y_cur :=
  c5_end_condition_stop exCfgE (initState exCfgE) (by decide) (by decide)

/-! ### Claim C9 -/

/-- The four-stage scheme exactly as the spec words it: k1 = f(h, y),
k2 = f(h/2, y + k1·h/2), k3 = f(h/2, y + k2·h/2), k4 = f(h, y + k3·h),
combined as (k1 + 2·k2 + 2·k3 + k4)/6. -/
def rk4SpecDeriv (f : ℚ → List ℚ → List ℚ) (h : ℚ) (y : List ℚ) : List ℚ :=
  let k1 := f h y
  let k2 := f (h / 2) (vadd y (smul (h / 2) k1))
  let k3 := f (h / 2) (vadd y (smul (h / 2) k2))
  let k4 := f h (vadd y (smul h k3))
  smul (1 / 6) (vadd (vadd (vadd k1 (smul 2 k2)) (smul 2 k3)) k4)

/-- C9: with `use_rk4` set, the combined derivative of each candidate step is
exactly the nonstandard stage scheme k1 = func(h,y), k2 = func(h/2, y+k1·h/2),
k3 = func(h/2, y+k2·h/2), k4 = func(h, y+k3·h) combined as
(k1+2k2+2k3+k4)/6, and the candidate state is y plus that combined
derivative times h. -/
theorem c9_rk4_scheme (cfg : PynConfig) (h : ℚ) (y : List ℚ)
    (hk : cfg.use_rk4 = true) :
    combinedDeriv cfg h y = rk4SpecDeriv cfg.func h y ∧
    yCandidate cfg h y = vadd y (smul h (rk4SpecDeriv cfg.func h y)) := by
  have h1 : combinedDeriv cfg h y = rk4SpecDeriv cfg.func h y := by
    simp only [combinedDeriv, rk4SpecDeriv, hk, if_true, smul]
    congr 1
    funext x
    rw [one_div, inv_mul_eq_div]
  exact ⟨h1, by rw [yCandidate, h1]⟩

/-- Witness for C9 at the concrete configuration `exCfgE` (whose scheme flag
is set), step size 1, state [1]. -/
theorem c9_rk4_scheme_witness :
    combinedDeriv exCfgE 1 [1] = rk4SpecDeriv exCfgE.func 1 [1] ∧
    yCandidate exCfgE 1 [1] = vadd [1] (smul 1 (rk4SpecDeriv exCfgE.func 1 [1])) :=
  c9_rk4_scheme exCfgE 1 [1] (by decide)

/-! ### Claim C8 -/

/-- C8: in an iteration that reaches the acceptance test (end condition
returned 0), the candidate is appended exactly when the spec's acceptance
predicate holds: the relative change |mn - mc| / denom with denom = mn
unless mn is exactly zero (then mc) is within the threshold, and when both
monitored values are exactly zero the step is accepted unconditionally. -/
theorem c8_acceptance_denominator (cfg : PynConfig) (s : PynState)
    (h0 : cfg.end_condition s.current_time s.y_cur s.y_old = 0) :
    ((loopBody cfg s).y_vals
        = s.y_vals ++ [yCandidate cfg (relaxPair cfg s).1 s.y_cur] ↔
      specAccept cfg (s.y_cur.getD cfg.param_to_monitor 0)
        ((yCandidate cfg (relaxPair cfg s).1 s.y_cur).getD cfg.param_to_monitor 0)) := by
  cases hrj : rejTest cfg s.y_cur (relaxPair cfg s).1 with
  | false =>
      rw [loopBody_accept h0 hrj]
      simp only [true_iff, iff_true]
      exact (rejTest_eq_false_iff cfg s.y_cur (relaxPair cfg s).1).mp hrj
  | true =>
      have hne : s.y_vals ≠ s.y_vals ++ [yCandidate cfg (relaxPair cfg s).1 s.y_cur] := by
        intro he
        have := congrArg List.length he
        simp at this
      have hns : ¬ specAccept cfg (s.y_cur.getD cfg.param_to_monitor 0)
          ((yCandidate cfg (relaxPair cfg s).1 s.y_cur).getD cfg.param_to_monitor 0) := by
        intro hsa
        have := (rejTest_eq_false_iff cfg s.y_cur (relaxPair cfg s).1).mpr hsa
        rw [hrj] at this
        exact Bool.true_eq_false.mp this
      by_cases hm : (relaxPair cfg s).1 = cfg.min_step_time
      · rw [loopBody_fail h0 hrj hm]
        exact iff_of_false hne hns
      · rw [loopBody_halve h0 hrj hm]
        exact iff_of_false hne hns

/-- Witness for C8 at the concrete configuration `exCfgB` and its initial
state (whose end condition is identically zero). -/
theorem c8_acceptance_denominator_witness :
    ((loopBody exCfgB (initState exCfgB)).y_vals
        = (initState exCfgB).y_vals ++
            [yCandidate exCfgB (relaxPair exCfgB (initState exCfgB)).1 (initState exCfgB).y_cur] ↔
      specAccept exCfgB ((initState exCfgB).y_cur.getD exCfgB.param_to_monitor 0)
        ((yCandidate exCfgB (relaxPair exCfgB (initState exCfgB)).1
            (initState exCfgB).y_cur).getD exCfgB.param_to_monitor 0)) :=
  c8_acceptance_denominator exCfgB (initState exCfgB) (by decide)

/-! ### Step-size bound helpers -/

theorem min_le_hlvFloor (cfg : PynConfig) (c : ℚ) :
    cfg.min_step_time ≤ hlvFloor cfg c := by
  unfold hlvFloor
  split_ifs with h
  · exact le_refl _
  · linarith [not_lt.mp h]

theorem hlvFloor_le {cfg : PynConfig} {c : ℚ}
    (hmin : cfg.min_step_time ≤ c) (h0 : 0 ≤ c) : hlvFloor cfg c ≤ c := by
  unfold hlvFloor
  split_ifs with h
  · exact hmin
  · linarith

theorem hlvFloor_le_base {cfg : PynConfig} {c : ℚ}
    (hc : c ≤ cfg.base_time_step) (h0 : 0 ≤ c)
    (hmb : cfg.min_step_time ≤ cfg.base_time_step) :
    hlvFloor cfg c ≤ cfg.base_time_step := by
  unfold hlvFloor
  split_ifs with h
  · exact hmb
  · linarith

theorem dblCap_bounds {cfg : PynConfig} {c : ℚ}
    (h1 : 0 < cfg.min_step_time) (h2 : cfg.min_step_time ≤ cfg.base_time_step)
    (hc : cfg.min_step_time ≤ c) :
    cfg.min_step_time ≤ dblCap cfg c ∧ dblCap cfg c ≤ cfg.base_time_step := by
  unfold dblCap
  split_ifs with h
  · exact ⟨h2, le_refl _⟩
  · constructor <;> linarith [not_lt.mp h]

theorem dblCap_le_two_mul {cfg : PynConfig} {c : ℚ} :
    dblCap cfg c ≤ c * 2 := by
  unfold dblCap
  split_ifs with h
  · exact le_of_lt h
  · exact le_refl _

/-- The step-size part of the spec's state invariant: the current step size
lies between the minimum and the base step. -/
def stepInv (cfg : PynConfig) (s : PynState) : Prop :=
  cfg.min_step_time ≤ s.cur_step_size ∧ s.cur_step_size ≤ cfg.base_time_step

theorem relaxPair_cases (cfg : PynConfig) (s : PynState) :
    relaxPair cfg s = (dblCap cfg s.cur_step_size, -1) ∨
      relaxPair cfg s = (s.cur_step_size, s.next_relax) := by
  unfold relaxPair
  split_ifs <;> [exact Or.inl rfl; exact Or.inr rfl]

theorem relaxPair_fst_bounds {cfg : PynConfig} {s : PynState}
    (h1 : 0 < cfg.min_step_time) (h2 : cfg.min_step_time ≤ cfg.base_time_step)
    (hs : stepInv cfg s) :
    cfg.min_step_time ≤ (relaxPair cfg s).1 ∧ (relaxPair cfg s).1 ≤ cfg.base_time_step := by
  rcases relaxPair_cases cfg s with h | h <;> rw [h]
  · exact dblCap_bounds h1 h2 hs.1
  · exact hs

theorem stepInv_body {cfg : PynConfig}
    (h1 : 0 < cfg.min_step_time) (h2 : cfg.min_step_time ≤ cfg.base_time_step) :
    ∀ s, stepInv cfg s → stepInv cfg (loopBody cfg s) := by
  intro s hs
  by_cases he : cfg.end_condition s.current_time s.y_cur s.y_old = 0
  · have hb := relaxPair_fst_bounds h1 h2 hs
    cases hrj : rejTest cfg s.y_cur (relaxPair cfg s).1 with
    | false => rw [loopBody_accept he hrj]; exact hb
    | true =>
        by_cases hm : (relaxPair cfg s).1 = cfg.min_step_time
        · rw [loopBody_fail he hrj hm]; exact hb
        · rw [loopBody_halve he hrj hm]
          exact ⟨min_le_hlvFloor cfg _,
            hlvFloor_le_base hb.2 (le_trans (le_of_lt h1) hb.1) h2⟩
  · rw [loopBody_end he]; exact hs

theorem stepInv_init {cfg : PynConfig}
    (h2 : cfg.min_step_time ≤ cfg.base_time_step) : stepInv cfg (initState cfg) :=
  ⟨h2, le_refl _⟩

theorem stepInv_runLoop {cfg : PynConfig}
    (h1 : 0 < cfg.min_step_time) (h2 : cfg.min_step_time ≤ cfg.base_time_step) :
    ∀ n, stepInv cfg (runLoop cfg n (initState cfg)) := fun n =>
  runLoop_inv (stepInv_body h1 h2) n _ (stepInv_init h2)

/-- In every branch of the loop body, the trajectory's last entry stays the
current state. -/
theorem lastAppended_body (cfg : PynConfig) (s : PynState)
    (h : s.y_vals.getLast? = some s.y_cur) :
    (loopBody cfg s).y_vals.getLast? = some (loopBody cfg s).y_cur := by
  by_cases he : cfg.end_condition s.current_time s.y_cur s.y_old = 0
  · cases hrj : rejTest cfg s.y_cur (relaxPair cfg s).1 with
    | false => rw [loopBody_accept he hrj]; simp
    | true =>
        by_cases hm : (relaxPair cfg s).1 = cfg.min_step_time
        · rw [loopBody_fail he hrj hm]; exact h
        · rw [loopBody_halve he hrj hm]; exact h
  · rw [loopBody_end he]; exact h

/-! ### Claim C6 -/

/-- C6: with 0 < min_step_time ≤ base_time_step, throughout every run the
tracked step size stays in [min_step_time, base_time_step], and in each
iteration the step size either stays, is doubled capped at the base step, or
is halved floored at the minimum step (possibly after the capped
doubling). -/
theorem c6_step_bounds (cfg : PynConfig)
    (h1 : 0 < cfg.min_step_time) (h2 : cfg.min_step_time ≤ cfg.base_time_step) :
    (∀ n, cfg.min_step_time ≤ (runLoop cfg n (initState cfg)).cur_step_size ∧
          (runLoop cfg n (initState cfg)).cur_step_size ≤ cfg.base_time_step) ∧
    (∀ s : PynState, (loopBody cfg s).cur_step_size = s.cur_step_size ∨
        (loopBody cfg s).cur_step_size = dblCap cfg s.cur_step_size ∨
        (loopBody cfg s).cur_step_size = hlvFloor cfg s.cur_step_size ∨
        (loopBody cfg s).cur_step_size = hlvFloor cfg (dblCap cfg s.cur_step_size)) := by
  constructor
  · exact fun n => stepInv_runLoop h1 h2 n
  · intro s
    by_cases he : cfg.end_condition s.current_time s.y_cur s.y_old = 0
    · cases hrj : rejTest cfg s.y_cur (relaxPair cfg s).1 with
      | false =>
          rw [loopBody_accept he hrj]
          rcases relaxPair_cases cfg s with h | h <;> rw [h]
          · exact Or.inr (Or.inl rfl)
          · exact Or.inl rfl
      | true =>
          by_cases hm : (relaxPair cfg s).1 = cfg.min_step_time
          · rw [loopBody_fail he hrj hm]
            rcases relaxPair_cases cfg s with h | h <;> rw [h]
            · exact Or.inr (Or.inl rfl)
            · exact Or.inl rfl
          · rw [loopBody_halve he hrj hm]
            rcases relaxPair_cases cfg s with h | h <;> rw [h]
            · exact Or.inr (Or.inr (Or.inr rfl))
            · exact Or.inr (Or.inr (Or.inl rfl))
    · rw [loopBody_end he]
      exact Or.inl rfl

/-- Witness for C6 at the concrete configuration `exCfgB`. -/
theorem c6_step_bounds_witness :
    (∀ n, exCfgB.min_step_time ≤ (runLoop exCfgB n (initState exCfgB)).cur_step_size ∧
          (runLoop exCfgB n (initState exCfgB)).cur_step_size ≤ exCfgB.base_time_step) ∧
    (∀ s : PynState, (loopBody exCfgB s).cur_step_size = s.cur_step_size ∨
        (loopBody exCfgB s).cur_step_size = dblCap exCfgB s.cur_step_size ∨
        (loopBody exCfgB s).cur_step_size = hlvFloor exCfgB s.cur_step_size ∨
        (loopBody exCfgB s).cur_step_size = hlvFloor exCfgB (dblCap exCfgB s.cur_step_size)) :=
  c6_step_bounds exCfgB (by decide) (by decide)

/-! ### Claim C7 -/

/-- The trajectory part of the spec's state invariant: strictly increasing
times starting at `start_time`, equal lengths of the two parallel sequences,
and the last time entry is the current time. -/
def trajInv (cfg : PynConfig) (s : PynState) : Prop :=
  List.Chain' (· < ·) s.times ∧ s.times.head? = some cfg.start_time ∧
  s.times.length = s.y_vals.length ∧ s.times.getLast? = some s.current_time

theorem trajInv_body {cfg : PynConfig}
    (h1 : 0 < cfg.min_step_time) (h2 : cfg.min_step_time ≤ cfg.base_time_step) :
    ∀ s, stepInv cfg s ∧ trajInv cfg s →
      stepInv cfg (loopBody cfg s) ∧ trajInv cfg (loopBody cfg s) := by
  intro s hs
  have hstep := hs.1
  obtain ⟨hchain, hhead, hlen, hlast⟩ := hs.2
  refine ⟨stepInv_body h1 h2 s hs.1, ?_⟩
  by_cases he : cfg.end_condition s.current_time s.y_cur s.y_old = 0
  · cases hrj : rejTest cfg s.y_cur (relaxPair cfg s).1 with
    | false =>
        rw [loopBody_accept he hrj]
        have htne : s.times ≠ [] := by
          intro h
          rw [h] at hlast
          exact Option.noConfusion hlast
        have hpos : 0 < (relaxPair cfg s).1 :=
          lt_of_lt_of_le h1 (relaxPair_fst_bounds h1 h2 hstep).1
        refine ⟨?_, ?_, ?_, ?_⟩
        · rw [List.chain'_append]
          refine ⟨hchain, List.chain'_singleton _, ?_⟩
          intro x hx y hy
          rw [hlast] at hx
          simp at hx hy
          subst hx
          subst hy
          linarith
        · rw [List.head?_append_of_ne_nil _ htne]
          exact hhead
        · simp [hlen]
        · simp
    | true =>
        by_cases hm : (relaxPair cfg s).1 = cfg.min_step_time
        · rw [loopBody_fail he hrj hm]
          exact ⟨hchain, hhead, hlen, hlast⟩
        · rw [loopBody_halve he hrj hm]
          exact ⟨hchain, hhead, hlen, hlast⟩
  · rw [loopBody_end he]
    exact ⟨hchain, hhead, hlen, hlast⟩

theorem trajInv_init (cfg : PynConfig) : trajInv cfg (initState cfg) := by
  refine ⟨List.chain'_singleton _, rfl, rfl, rfl⟩

/-- C7: with 0 < min_step_time ≤ base_time_step, for every run the returned
times sequence is strictly increasing and starts at `start_time`, and the
times and y_vals sequences always have equal length. -/
theorem c7_monotone_times (cfg : PynConfig)
    (h1 : 0 < cfg.min_step_time) (h2 : cfg.min_step_time ≤ cfg.base_time_step) :
    ∀ fuel, List.Chain' (· < ·) (pynamic_ode cfg fuel).1 ∧
      (pynamic_ode cfg fuel).1.head? = some cfg.start_time ∧
      (pynamic_ode cfg fuel).1.length = (pynamic_ode cfg fuel).2.1.length := by
  intro fuel
  have h := runLoop_inv (trajInv_body h1 h2) fuel (initState cfg)
    ⟨stepInv_init h2, trajInv_init cfg⟩
  exact ⟨h.2.1, h.2.2.1, h.2.2.2.1⟩

/-- Witness for C7 at the concrete configuration `exCfgB`, fuel 8. -/
theorem c7_monotone_times_witness :
    List.Chain' (· < ·) (pynamic_ode exCfgB 8).1 ∧
    (pynamic_ode exCfgB 8).1.head? = some exCfgB.start_time ∧
    (pynamic_ode exCfgB 8).1.length = (pynamic_ode exCfgB 8).2.1.length :=
  c7_monotone_times exCfgB (by decide) (by decide) 8

/-! ### Claim C1 -/

/-- Consecutive-pair acceptance relation on trajectory states: the spec's
acceptance predicate applied to the monitored components of the two
states. -/
def accOK (cfg : PynConfig) (a b : List ℚ) : Prop :=
  specAccept cfg (a.getD cfg.param_to_monitor 0) (b.getD cfg.param_to_monitor 0)

theorem accOK_body (cfg : PynConfig) :
    ∀ s, List.Chain' (accOK cfg) s.y_vals ∧ s.y_vals.getLast? = some s.y_cur →
      List.Chain' (accOK cfg) (loopBody cfg s).y_vals ∧
        (loopBody cfg s).y_vals.getLast? = some (loopBody cfg s).y_cur := by
  intro s hs
  refine ⟨?_, lastAppended_body cfg s hs.2⟩
  by_cases he : cfg.end_condition s.current_time s.y_cur s.y_old = 0
  · cases hrj : rejTest cfg s.y_cur (relaxPair cfg s).1 with
    | false =>
        rw [loopBody_accept he hrj]
        rw [List.chain'_append]
        refine ⟨hs.1, List.chain'_singleton _, ?_⟩
        intro x hx y hy
        rw [hs.2] at hx
        simp at hx hy
        subst hx
        subst hy
        exact (rejTest_eq_false_iff cfg s.y_cur (relaxPair cfg s).1).mp hrj
    | true =>
        by_cases hm : (relaxPair cfg s).1 = cfg.min_step_time
        · rw [loopBody_fail he hrj hm]; exact hs.1
        · rw [loopBody_halve he hrj hm]; exact hs.1
  · rw [loopBody_end he]; exact hs.1

/-- C1: for every run of `pynamic_ode`, every pair of consecutive entries of
the returned y_vals satisfies the acceptance bound: the relative change of
the monitored component (as the spec defines it) is at most
`max_param_delta`, except when both compared monitored values are exactly
zero. -/
theorem c1_accepted_relative_change (cfg : PynConfig) (fuel : ℕ) :
    List.Chain' (accOK cfg) (pynamic_ode cfg fuel).2.1 := by
  have h := runLoop_inv (accOK_body cfg) fuel (initState cfg)
    ⟨List.chain'_singleton _, rfl⟩
  exact h.1

/-! ### Claim C3 -/

/-- C3 (amended): in every loop iteration the third argument handed to the
next end-condition call, the `y_old` field, is set to the current state of
that iteration — which is always the trajectory's most recently appended
entry, not the entry before the last one. -/
theorem c3_amended_y_old :
    (∀ (cfg : PynConfig) (s : PynState), (loopBody cfg s).y_old = s.y_cur) ∧
    (∀ (cfg : PynConfig) (n : ℕ),
      ((runLoop cfg n (initState cfg)).y_vals).getLast? =
        some (runLoop cfg n (initState cfg)).y_cur) := by
  constructor
  · intro cfg s
    by_cases he : cfg.end_condition s.current_time s.y_cur s.y_old = 0
    · cases hrj : rejTest cfg s.y_cur (relaxPair cfg s).1 with
      | false => rw [loopBody_accept he hrj]
      | true =>
          by_cases hm : (relaxPair cfg s).1 = cfg.min_step_time
          · rw [loopBody_fail he hrj hm]
          · rw [loopBody_halve he hrj hm]
    · rw [loopBody_end he]
  · intro cfg n
    exact runLoop_inv (fun s => lastAppended_body cfg s) n _ rfl

/-- C3 counterexample: in the run of `exCfgA`, iteration 8 executes (the
guard holds after 7 iterations) and invokes the end condition with third
argument `y_old = [625/256]`, which is the trajectory's last appended state;
the state appended immediately before the currently last one is `[125/64]`,
a different vector.  The rejected step of iteration 7 left `y_old` equal to
the last entry, not the one before it. -/
theorem c3_counterexample :
    loopGuard exCfgA (runLoop exCfgA 7 (initState exCfgA)) = true ∧
    (runLoop exCfgA 7 (initState exCfgA)).y_old = [625 / 256] ∧
    (runLoop exCfgA 7 (initState exCfgA)).y_vals =
      [[1], [5 / 4], [25 / 16], [125 / 64], [625 / 256]] ∧
    ([(625 : ℚ) / 256] : List ℚ) ≠ [125 / 64] := by
  refine ⟨by decide, by decide, by decide, by decide⟩

/-! ### Claim C2 -/

/-- C2 (amended): the step size is doubled (capped at the base step) exactly
when `cur_step_size < base_time_step` and `current_time ≥ next_relax`; since
the sentinel value −1 also satisfies the comparison whenever
`current_time ≥ −1`, the doubling can fire with no relaxation pending.  When
the comparison fails, the iteration never increases the step size. -/
theorem c2_amended_relax_guard (cfg : PynConfig) (s : PynState)
    (hmc : cfg.min_step_time ≤ s.cur_step_size) (h0c : 0 ≤ s.cur_step_size) :
    (¬(s.cur_step_size < cfg.base_time_step ∧ s.next_relax ≤ s.current_time) →
      (loopBody cfg s).cur_step_size ≤ s.cur_step_size) ∧
    (s.cur_step_size < cfg.base_time_step → s.next_relax ≤ s.current_time →
      relaxPair cfg s = (dblCap cfg s.cur_step_size, -1)) := by
  constructor
  · intro hno
    have hrp : relaxPair cfg s = (s.cur_step_size, s.next_relax) := by
      unfold relaxPair
      rw [if_neg hno]
    by_cases he : cfg.end_condition s.current_time s.y_cur s.y_old = 0
    · cases hrj : rejTest cfg s.y_cur (relaxPair cfg s).1 with
      | false => rw [loopBody_accept he hrj, hrp]
      | true =>
          by_cases hm : (relaxPair cfg s).1 = cfg.min_step_time
          · rw [loopBody_fail he hrj hm, hrp]
          · rw [loopBody_halve he hrj hm, hrp]
            exact hlvFloor_le hmc h0c
    · rw [loopBody_end he]
  · intro hlt hle
    unfold relaxPair
    rw [if_pos ⟨hlt, hle⟩]

/-- Witness for the amended C2 at the concrete configuration `exCfgB` and
its initial state. -/
theorem c2_amended_relax_guard_witness :
    (¬((initState exCfgB).cur_step_size < exCfgB.base_time_step ∧
        (initState exCfgB).next_relax ≤ (initState exCfgB).current_time) →
      (loopBody exCfgB (initState exCfgB)).cur_step_size ≤
        (initState exCfgB).cur_step_size) ∧
    ((initState exCfgB).cur_step_size < exCfgB.base_time_step →
      (initState exCfgB).next_relax ≤ (initState exCfgB).current_time →
      relaxPair exCfgB (initState exCfgB) = (dblCap exCfgB (initState exCfgB).cur_step_size, -1)) :=
  c2_amended_relax_guard exCfgB (initState exCfgB) (by decide) (by decide)

/-- C2 counterexample: in the run of `exCfgB`, after 7 iterations the loop
guard still holds, the next-relaxation marker holds the sentinel −1 (no
pending relaxation) and the step size is 2, strictly below the base step 4;
yet the following iteration doubles the step size to 4. -/
theorem c2_counterexample :
    loopGuard exCfgB (runLoop exCfgB 7 (initState exCfgB)) = true ∧
    (runLoop exCfgB 7 (initState exCfgB)).next_relax = -1 ∧
    (runLoop exCfgB 7 (initState exCfgB)).cur_step_size = 2 ∧
    (runLoop exCfgB 7 (initState exCfgB)).cur_step_size < exCfgB.base_time_step ∧
    (loopBody exCfgB (runLoop exCfgB 7 (initState exCfgB))).cur_step_size = 4 := by
  refine ⟨by decide, by decide, by decide, by decide, by decide⟩

/-! ### Halving counter: how many halvings until the minimum step is
reached -/

theorem hcount_ex (m q : ℚ) (hm : 0 < m) : ∃ k : ℕ, q ≤ m * 2 ^ k := by
  obtain ⟨k, hk⟩ := pow_unbounded_of_one_lt (q / m) (by norm_num : (1 : ℚ) < 2)
  refine ⟨k, ?_⟩
  rw [div_lt_iff₀ hm] at hk
  nlinarith [hk]

/-- The least `k` with `q ≤ m * 2 ^ k`: an upper bound on the number of
halvings (floored at `m`) needed to bring `q` down to `m`. -/
def hcount (m q : ℚ) (hm : 0 < m) : ℕ := Nat.find (hcount_ex m q hm)

theorem hcount_spec (m q : ℚ) (hm : 0 < m) : q ≤ m * 2 ^ hcount m q hm :=
  Nat.find_spec (hcount_ex m q hm)

theorem hcount_le {m q : ℚ} {hm : 0 < m} {k : ℕ} (h : q ≤ m * 2 ^ k) :
    hcount m q hm ≤ k :=
  Nat.find_min' (hcount_ex m q hm) h

theorem hcount_mono {m q q' : ℚ} {hm : 0 < m} (h : q ≤ q') :
    hcount m q hm ≤ hcount m q' hm :=
  hcount_le (le_trans h (hcount_spec m q' hm))

theorem hcount_of_le {m q : ℚ} {hm : 0 < m} (h : q ≤ m) : hcount m q hm = 0 :=
  Nat.le_zero.mp (hcount_le (by simpa using h))

theorem hcount_pos {m q : ℚ} {hm : 0 < m} (h : m < q) : 1 ≤ hcount m q hm := by
  rcases Nat.eq_zero_or_pos (hcount m q hm) with h0 | h1
  · have hs := hcount_spec m q hm
    rw [h0] at hs
    simp at hs
    linarith
  · exact h1

theorem hcount_halve {m q : ℚ} {hm : 0 < m} (hq : 1 ≤ hcount m q hm) :
    hcount m (q / 2) hm ≤ hcount m q hm - 1 := by
  apply hcount_le
  have hs := hcount_spec m q hm
  have hp : (2 : ℚ) ^ hcount m q hm = 2 ^ (hcount m q hm - 1) * 2 := by
    rw [← pow_succ]
    congr 1
    omega
  rw [hp] at hs
  linarith

/-- Once the halving branch fires from a step size strictly above the
minimum, the halving counter strictly decreases. -/
theorem hcount_hlvFloor_lt {cfg : PynConfig} {c : ℚ} (h1 : 0 < cfg.min_step_time)
    (hgt : cfg.min_step_time < c) :
    hcount cfg.min_step_time (hlvFloor cfg c) h1 < hcount cfg.min_step_time c h1 := by
  have hq : 1 ≤ hcount cfg.min_step_time c h1 := hcount_pos hgt
  unfold hlvFloor
  split_ifs with h
  · rw [hcount_of_le (le_refl _)]
    omega
  · have := @hcount_halve cfg.min_step_time c h1 hq
    omega

/-! ### Claim C4 -/

/-- State of a run that has made no progress yet: still at the initial time
and state, with only the seeded trajectory point, and with a
next-relaxation marker that cannot fire at the initial time. -/
def stuckInv (cfg : PynConfig) (s : PynState) : Prop :=
  s.current_time = cfg.start_time ∧ s.y_cur = cfg.initial_val ∧
  s.y_vals = [cfg.initial_val] ∧ s.times = [cfg.start_time] ∧
  s.end_cond_val = true ∧ s.not_failed = true ∧
  cfg.min_step_time ≤ s.cur_step_size ∧ s.cur_step_size ≤ cfg.base_time_step ∧
  ((s.next_relax < 0 ∧ cfg.base_time_step ≤ s.cur_step_size) ∨
    cfg.start_time < s.next_relax)

theorem stuck_step (cfg : PynConfig)
    (h1 : 0 < cfg.min_step_time) (h2 : cfg.min_step_time ≤ cfg.base_time_step)
    (h3 : cfg.start_time < cfg.max_time)
    (hend : ∀ t y yo, cfg.end_condition t y yo = 0)
    (hrej : ∀ h, cfg.min_step_time ≤ h → h ≤ cfg.base_time_step →
      rejTest cfg cfg.initial_val h = true)
    (s : PynState) (hst : stuckInv cfg s) :
    loopGuard cfg s = true ∧
    ((s.cur_step_size = cfg.min_step_time ∧
        (loopBody cfg s).status = -1 ∧ (loopBody cfg s).not_failed = false ∧
        (loopBody cfg s).y_vals = [cfg.initial_val] ∧
        loopGuard cfg (loopBody cfg s) = false) ∨
      (s.cur_step_size ≠ cfg.min_step_time ∧ stuckInv cfg (loopBody cfg s) ∧
        hcount cfg.min_step_time (loopBody cfg s).cur_step_size h1 <
          hcount cfg.min_step_time s.cur_step_size h1)) := by
  obtain ⟨ht, hy, hyv, htm, hec, hnf, hlo, hhi, hdis⟩ := hst
  have hg : loopGuard cfg s = true :=
    loopGuard_eq_true.mpr ⟨by rw [ht]; exact h3, hec, hnf⟩
  refine ⟨hg, ?_⟩
  have he : cfg.end_condition s.current_time s.y_cur s.y_old = 0 := hend _ _ _
  have hno : ¬(s.cur_step_size < cfg.base_time_step ∧ s.next_relax ≤ s.current_time) := by
    rintro ⟨hlt, hle⟩
    rcases hdis with ⟨_, hbc⟩ | hgt
    · linarith
    · rw [ht] at hle; linarith
  have hrp : relaxPair cfg s = (s.cur_step_size, s.next_relax) := by
    unfold relaxPair
    rw [if_neg hno]
  have hrj : rejTest cfg s.y_cur (relaxPair cfg s).1 = true := by
    rw [hrp, hy]
    exact hrej s.cur_step_size hlo hhi
  by_cases hm : s.cur_step_size = cfg.min_step_time
  · left
    have hm' : (relaxPair cfg s).1 = cfg.min_step_time := by rw [hrp]; exact hm
    rw [loopBody_fail he hrj hm']
    exact ⟨hm, rfl, rfl, hyv, loopGuard_false_of_failed rfl⟩
  · right
    have hm' : (relaxPair cfg s).1 ≠ cfg.min_step_time := by rw [hrp]; exact hm
    rw [loopBody_halve he hrj hm']
    have hgt : cfg.min_step_time < s.cur_step_size := lt_of_le_of_ne hlo (Ne.symm hm)
    refine ⟨hm, ⟨ht, hy, hyv, htm, hec, hnf, ?_, ?_, ?_⟩, ?_⟩
    · rw [hrp]; exact min_le_hlvFloor cfg _
    · rw [hrp]; exact hlvFloor_le_base hhi (by linarith) h2
    · rw [hrp]
      split_ifs with hneg
      · right
        show cfg.start_time < s.current_time + cfg.base_time_step
        rw [ht]
        linarith
      · rcases hdis with ⟨hn0, _⟩ | hgt'
        · exact absurd hn0 hneg
        · exact Or.inr hgt'
    · rw [hrp]
      exact hcount_hlvFloor_lt h1 hgt

theorem stuck_run (cfg : PynConfig)
    (h1 : 0 < cfg.min_step_time) (h2 : cfg.min_step_time ≤ cfg.base_time_step)
    (h3 : cfg.start_time < cfg.max_time)
    (hend : ∀ t y yo, cfg.end_condition t y yo = 0)
    (hrej : ∀ h, cfg.min_step_time ≤ h → h ≤ cfg.base_time_step →
      rejTest cfg cfg.initial_val h = true) :
    ∀ (n : ℕ) (s : PynState), stuckInv cfg s →
      hcount cfg.min_step_time s.cur_step_size h1 ≤ n →
      ∃ k, (runLoop cfg k s).status = -1 ∧ (runLoop cfg k s).not_failed = false ∧
        (runLoop cfg k s).y_vals = [cfg.initial_val] ∧
        loopGuard cfg (runLoop cfg k s) = false := by
  intro n
  induction n with
  | zero =>
      intro s hst hn
      obtain ⟨hg, hcase⟩ := stuck_step cfg h1 h2 h3 hend hrej s hst
      rcases hcase with ⟨_, hs1, hs2, hs3, hs4⟩ | ⟨hm, _, hlt⟩
      · refine ⟨1, ?_, ?_, ?_, ?_⟩ <;>
          · rw [runLoop_succ, if_pos hg]
            first
              | exact hs1
              | exact hs2
              | exact hs3
              | exact hs4
      · exfalso
        omega
  | succ n ih =>
      intro s hst hn
      obtain ⟨hg, hcase⟩ := stuck_step cfg h1 h2 h3 hend hrej s hst
      rcases hcase with ⟨_, hs1, hs2, hs3, hs4⟩ | ⟨hm, hst', hlt⟩
      · refine ⟨1, ?_, ?_, ?_, ?_⟩ <;>
          · rw [runLoop_succ, if_pos hg]
            first
              | exact hs1
              | exact hs2
              | exact hs3
              | exact hs4
      · obtain ⟨k, hk⟩ := ih (loopBody cfg s) hst' (by omega)
        refine ⟨k + 1, ?_, ?_, ?_, ?_⟩ <;>
          · rw [runLoop_succ, if_pos hg]
            first
              | exact hk.1
              | exact hk.2.1
              | exact hk.2.2.1
              | exact hk.2.2.2

/-- C4: if the acceptance threshold is violated from the initial state at
every allowed step size (in particular even at `min_step_time`), and the end
condition never fires, `pynamic_ode` reaches status -1 in finitely many
iterations; the rejected candidate is never appended, so the returned
trajectory stops growing at the point of failure (it still holds only the
seeded initial point), and the state stays frozen from then on. -/
theorem c4_hard_failure (cfg : PynConfig)
    (h1 : 0 < cfg.min_step_time) (h2 : cfg.min_step_time ≤ cfg.base_time_step)
    (h3 : cfg.start_time < cfg.max_time)
    (hend : ∀ t y yo, cfg.end_condition t y yo = 0)
    (hrej : ∀ h, cfg.min_step_time ≤ h → h ≤ cfg.base_time_step →
      rejTest cfg cfg.initial_val h = true) :
    ∃ N, (runLoop cfg N (initState cfg)).status = -1 ∧
      (runLoop cfg N (initState cfg)).not_failed = false ∧
      (runLoop cfg N (initState cfg)).y_vals = [cfg.initial_val] ∧
      ∀ m, runLoop cfg (N + m) (initState cfg) = runLoop cfg N (initState cfg) := by
  have hst : stuckInv cfg (initState cfg) :=
    ⟨rfl, rfl, rfl, rfl, rfl, rfl, h2, le_refl _,
      Or.inl ⟨by show (-1 : ℚ) < 0; norm_num, le_refl _⟩⟩
  obtain ⟨k, hk1, hk2, hk3, hk4⟩ :=
    stuck_run cfg h1 h2 h3 hend hrej
      (hcount cfg.min_step_time (initState cfg).cur_step_size h1)
      (initState cfg) hst (le_refl _)
  refine ⟨k, hk1, hk2, hk3, ?_⟩
  intro m
  rw [runLoop_add, runLoop_of_guard_false hk4]

/-- Example configuration whose derivative moves the monitored component by
10 in one step regardless of the step size, violating the 50% threshold at
every step size. -/
def exCfgD : PynConfig where
  func := fun h _ => [10 / h]
  start_time := 0
  max_time := 1
  initial_val := [1]
  param_to_monitor := 0
  max_param_delta := 1 / 2
  base_time_step := 1
  min_step_time := 1 / 4
  end_condition := fun _ _ _ => 0
  use_rk4 := false

theorem exCfgD_rejects : ∀ h, exCfgD.min_step_time ≤ h →
    h ≤ exCfgD.base_time_step → rejTest exCfgD exCfgD.initial_val h = true := by
  intro h hh1 hh2
  have hpos : (0 : ℚ) < h := lt_of_lt_of_le (by decide) hh1
  have hne : h ≠ 0 := ne_of_gt hpos
  have hcand : yCandidate exCfgD h [1] = [11] := by
    simp [yCandidate, combinedDeriv, vadd, smul, exCfgD]
    rw [mul_comm]
    rw [div_mul_cancel₀ 10 hne]
    norm_num
  calc rejTest exCfgD exCfgD.initial_val h
      = rejTestQ exCfgD.max_param_delta 1 ((yCandidate exCfgD h [1]).getD 0 0) := rfl
    _ = true := by rw [hcand]; decide

/-- Witness for C4 at the concrete configuration `exCfgD`. -/
theorem c4_hard_failure_witness :
    ∃ N, (runLoop exCfgD N (initState exCfgD)).status = -1 ∧
      (runLoop exCfgD N (initState exCfgD)).not_failed = false ∧
      (runLoop exCfgD N (initState exCfgD)).y_vals = [exCfgD.initial_val] ∧
      ∀ m, runLoop exCfgD (N + m) (initState exCfgD) = runLoop exCfgD N (initState exCfgD) :=
  c4_hard_failure exCfgD (by decide) (by decide) (by decide)
    (fun _ _ _ => rfl) exCfgD_rejects

/-! ### Claim C10: termination measure -/

/-- Upper bound on the number of accepted steps still possible before the
time budget is exhausted. -/
def measA (cfg : PynConfig) (s : PynState) : ℕ :=
  Nat.ceil ((cfg.max_time - s.current_time) / cfg.min_step_time)

/-- Bound on the number of rejected iterations possible at a fixed time:
halvings remaining plus an allowance for one armed relaxation doubling. -/
def measB (cfg : PynConfig) (h1 : 0 < cfg.min_step_time) (s : PynState) : ℕ :=
  2 * hcount cfg.min_step_time s.cur_step_size h1 +
    (if s.next_relax ≤ s.current_time then 3 else 0)

/-- Strict upper bound for `measB` over all states satisfying `stepInv`. -/
def measK (cfg : PynConfig) (h1 : 0 < cfg.min_step_time) : ℕ :=
  2 * hcount cfg.min_step_time cfg.base_time_step h1 + 4

/-- Combined lexicographic termination measure. -/
def measMu (cfg : PynConfig) (h1 : 0 < cfg.min_step_time) (s : PynState) : ℕ :=
  measA cfg s * measK cfg h1 + measB cfg h1 s

theorem measB_lt_measK {cfg : PynConfig} {s : PynState}
    (h1 : 0 < cfg.min_step_time) (hs : stepInv cfg s) :
    measB cfg h1 s < measK cfg h1 := by
  unfold measB measK
  have hm := @hcount_mono cfg.min_step_time s.cur_step_size cfg.base_time_step h1 hs.2
  split_ifs <;> omega

theorem measA_step {cfg : PynConfig} {s s' : PynState}
    (h1 : 0 < cfg.min_step_time)
    (hlt : s.current_time < cfg.max_time)
    (hadv : s.current_time + cfg.min_step_time ≤ s'.current_time) :
    measA cfg s' + 1 ≤ measA cfg s := by
  unfold measA
  have hpos : 0 < (cfg.max_time - s.current_time) / cfg.min_step_time :=
    div_pos (by linarith) h1
  have hA1 : 1 ≤ Nat.ceil ((cfg.max_time - s.current_time) / cfg.min_step_time) :=
    Nat.ceil_pos.mpr hpos
  have hle : (cfg.max_time - s'.current_time) / cfg.min_step_time ≤
      ((Nat.ceil ((cfg.max_time - s.current_time) / cfg.min_step_time) - 1 : ℕ) : ℚ) := by
    have hcast : ((Nat.ceil ((cfg.max_time - s.current_time) / cfg.min_step_time) - 1 : ℕ) : ℚ)
        = (Nat.ceil ((cfg.max_time - s.current_time) / cfg.min_step_time) : ℚ) - 1 := by
      push_cast [Nat.cast_sub hA1]
      ring
    rw [hcast]
    have hub := Nat.le_ceil ((cfg.max_time - s.current_time) / cfg.min_step_time)
    have hstep : (cfg.max_time - s'.current_time) / cfg.min_step_time ≤
        (cfg.max_time - s.current_time - cfg.min_step_time) / cfg.min_step_time :=
      (div_le_div_iff_of_pos_right h1).mpr (by linarith)
    have hsub : (cfg.max_time - s.current_time - cfg.min_step_time) / cfg.min_step_time =
        (cfg.max_time - s.current_time) / cfg.min_step_time - 1 := by
      rw [sub_div, div_self (ne_of_gt h1)]
    linarith
  have := Nat.ceil_le.mpr hle
  omega

theorem hlvFloor_dblCap_le {cfg : PynConfig} {c : ℚ}
    (hc : cfg.min_step_time ≤ c) :
    hlvFloor cfg (dblCap cfg c) ≤ c := by
  have hd : dblCap cfg c ≤ c * 2 := dblCap_le_two_mul
  unfold hlvFloor
  split_ifs with h
  · exact hc
  · linarith

/-- Every guarded iteration either makes the guard false or strictly
decreases the combined termination measure. -/
theorem measMu_decrease (cfg : PynConfig)
    (h1 : 0 < cfg.min_step_time) (h2 : cfg.min_step_time ≤ cfg.base_time_step)
    (s : PynState) (hs : stepInv cfg s) (hg : loopGuard cfg s = true) :
    loopGuard cfg (loopBody cfg s) = false ∨
      measMu cfg h1 (loopBody cfg s) < measMu cfg h1 s := by
  obtain ⟨htmax, hec, hnf⟩ := loopGuard_eq_true.mp hg
  by_cases he : cfg.end_condition s.current_time s.y_cur s.y_old = 0
  · have hb := relaxPair_fst_bounds h1 h2 hs
    cases hrj : rejTest cfg s.y_cur (relaxPair cfg s).1 with
    | false =>
        right
        have hsi' := stepInv_body h1 h2 s hs
        have hB' := measB_lt_measK h1 hsi'
        have hA' : measA cfg (loopBody cfg s) + 1 ≤ measA cfg s := by
          apply measA_step h1 htmax
          rw [loopBody_accept he hrj]
          show s.current_time + cfg.min_step_time ≤ s.current_time + (relaxPair cfg s).1
          linarith [hb.1]
        unfold measMu
        calc measA cfg (loopBody cfg s) * measK cfg h1 + measB cfg h1 (loopBody cfg s)
            < measA cfg (loopBody cfg s) * measK cfg h1 + measK cfg h1 := by omega
          _ = (measA cfg (loopBody cfg s) + 1) * measK cfg h1 := by ring
          _ ≤ measA cfg s * measK cfg h1 := Nat.mul_le_mul_right _ hA'
          _ ≤ measA cfg s * measK cfg h1 + measB cfg h1 s := Nat.le_add_right _ _
    | true =>
        by_cases hm : (relaxPair cfg s).1 = cfg.min_step_time
        · left
          apply loopGuard_false_of_failed
          rw [loopBody_fail he hrj hm]
        · right
          have hcur : (loopBody cfg s).cur_step_size = hlvFloor cfg (relaxPair cfg s).1 := by
            rw [loopBody_halve he hrj hm]
          have htime : (loopBody cfg s).current_time = s.current_time := by
            rw [loopBody_halve he hrj hm]
          have hnr : (loopBody cfg s).next_relax =
              if (relaxPair cfg s).2 < 0 then s.current_time + cfg.base_time_step
              else (relaxPair cfg s).2 := by
            rw [loopBody_halve he hrj hm]
          have hAA : measA cfg (loopBody cfg s) = measA cfg s := by
            unfold measA
            rw [htime]
          have hbase : (0 : ℚ) < cfg.base_time_step := lt_of_lt_of_le h1 h2
          have harm' : ¬ s.current_time + cfg.base_time_step ≤ s.current_time := by
            linarith
          have hBB : measB cfg h1 (loopBody cfg s) < measB cfg h1 s := by
            unfold measB
            rw [hcur, htime, hnr]
            by_cases hrel : s.cur_step_size < cfg.base_time_step ∧
                s.next_relax ≤ s.current_time
            · have hrp : relaxPair cfg s = (dblCap cfg s.cur_step_size, -1) := by
                unfold relaxPair
                rw [if_pos hrel]
              simp only [hrp]
              rw [if_pos (by norm_num : (-1 : ℚ) < 0), if_neg harm', if_pos hrel.2]
              have hmono : hcount cfg.min_step_time
                  (hlvFloor cfg (dblCap cfg s.cur_step_size)) h1 ≤
                  hcount cfg.min_step_time s.cur_step_size h1 :=
                hcount_mono (hlvFloor_dblCap_le hs.1)
              omega
            · have hrp : relaxPair cfg s = (s.cur_step_size, s.next_relax) := by
                unfold relaxPair
                rw [if_neg hrel]
              simp only [hrp]
              have hcm : s.cur_step_size ≠ cfg.min_step_time := by
                intro hq
                apply hm
                rw [hrp]
                exact hq
              have hgt : cfg.min_step_time < s.cur_step_size :=
                lt_of_le_of_ne hs.1 (Ne.symm hcm)
              have hdec := @hcount_hlvFloor_lt cfg s.cur_step_size h1 hgt
              by_cases hneg : s.next_relax < 0
              · rw [if_pos hneg, if_neg harm']
                split_ifs with harm <;> omega
              · rw [if_neg hneg]
                split_ifs with harm <;> omega
          unfold measMu
          rw [hAA]
          exact Nat.add_lt_add_left hBB _
  · left
    apply loopGuard_false_of_end_cond
    rw [loopBody_end he]

theorem guard_eventually_false (cfg : PynConfig)
    (h1 : 0 < cfg.min_step_time) (h2 : cfg.min_step_time ≤ cfg.base_time_step) :
    ∀ (n : ℕ) (s : PynState), stepInv cfg s → measMu cfg h1 s ≤ n →
      ∃ N, loopGuard cfg (runLoop cfg N s) = false := by
  intro n
  induction n with
  | zero =>
      intro s hs hn
      cases hgb : loopGuard cfg s with
      | false => exact ⟨0, hgb⟩
      | true =>
          rcases measMu_decrease cfg h1 h2 s hs hgb with hf | hlt
          · exact ⟨1, by rw [runLoop_succ, if_pos hgb]; exact hf⟩
          · exact absurd hlt (by omega)
  | succ n ih =>
      intro s hs hn
      cases hgb : loopGuard cfg s with
      | false => exact ⟨0, hgb⟩
      | true =>
          rcases measMu_decrease cfg h1 h2 s hs hgb with hf | hlt
          · exact ⟨1, by rw [runLoop_succ, if_pos hgb]; exact hf⟩
          · obtain ⟨N, hN⟩ := ih (loopBody cfg s) (stepInv_body h1 h2 s hs) (by omega)
            exact ⟨N + 1, by rw [runLoop_succ, if_pos hgb]; exact hN⟩

/-- C10 (amended): with 0 < min_step_time ≤ base_time_step and total
callbacks, every run of `pynamic_ode` terminates: after finitely many
iterations the loop guard is false and the state is frozen.  Each guarded
iteration either makes the guard false (end condition or hard failure),
advances time by at least `min_step_time` (an accepted step), or leaves the
time unchanged without increasing the step size (a rejected step, possibly
after one capped doubling). -/
theorem c10_amended_termination (cfg : PynConfig)
    (h1 : 0 < cfg.min_step_time) (h2 : cfg.min_step_time ≤ cfg.base_time_step) :
    (∃ N, loopGuard cfg (runLoop cfg N (initState cfg)) = false ∧
      ∀ m, runLoop cfg (N + m) (initState cfg) = runLoop cfg N (initState cfg)) ∧
    (∀ s, stepInv cfg s → loopGuard cfg s = true →
      loopGuard cfg (loopBody cfg s) = false ∨
      s.current_time + cfg.min_step_time ≤ (loopBody cfg s).current_time ∨
      ((loopBody cfg s).current_time = s.current_time ∧
        (loopBody cfg s).cur_step_size ≤ s.cur_step_size)) := by
  constructor
  · obtain ⟨N, hN⟩ := guard_eventually_false cfg h1 h2
      (measMu cfg h1 (initState cfg)) (initState cfg) (stepInv_init h2) (le_refl _)
    refine ⟨N, hN, ?_⟩
    intro m
    rw [runLoop_add, runLoop_of_guard_false hN]
  · intro s hs hg
    by_cases he : cfg.end_condition s.current_time s.y_cur s.y_old = 0
    · have hb := relaxPair_fst_bounds h1 h2 hs
      cases hrj : rejTest cfg s.y_cur (relaxPair cfg s).1 with
      | false =>
          right; left
          rw [loopBody_accept he hrj]
          show s.current_time + cfg.min_step_time ≤ s.current_time + (relaxPair cfg s).1
          linarith [hb.1]
      | true =>
          by_cases hm : (relaxPair cfg s).1 = cfg.min_step_time
          · left
            apply loopGuard_false_of_failed
            rw [loopBody_fail he hrj hm]
          · right; right
            constructor
            · rw [loopBody_halve he hrj hm]
            · rw [loopBody_halve he hrj hm]
              show hlvFloor cfg (relaxPair cfg s).1 ≤ s.cur_step_size
              by_cases hrel : s.cur_step_size < cfg.base_time_step ∧
                  s.next_relax ≤ s.current_time
              · have hrp : relaxPair cfg s = (dblCap cfg s.cur_step_size, -1) := by
                  unfold relaxPair
                  rw [if_pos hrel]
                rw [hrp]
                exact hlvFloor_dblCap_le hs.1
              · have hrp : relaxPair cfg s = (s.cur_step_size, s.next_relax) := by
                  unfold relaxPair
                  rw [if_neg hrel]
                rw [hrp]
                exact hlvFloor_le hs.1 (by linarith [lt_of_lt_of_le h1 hs.1])
    · left
      apply loopGuard_false_of_end_cond
      rw [loopBody_end he]

/-- Witness for the amended C10 at the concrete configuration `exCfgB`. -/
theorem c10_amended_termination_witness :
    (∃ N, loopGuard exCfgB (runLoop exCfgB N (initState exCfgB)) = false ∧
      ∀ m, runLoop exCfgB (N + m) (initState exCfgB) = runLoop exCfgB N (initState exCfgB)) ∧
    (∀ s, stepInv exCfgB s → loopGuard exCfgB s = true →
      loopGuard exCfgB (loopBody exCfgB s) = false ∨
      s.current_time + exCfgB.min_step_time ≤ (loopBody exCfgB s).current_time ∨
      ((loopBody exCfgB s).current_time = s.current_time ∧
        (loopBody exCfgB s).cur_step_size ≤ s.cur_step_size)) :=
  c10_amended_termination exCfgB (by decide) (by decide)

/-- C10 counterexample to the claimed iteration trichotomy: in the run of
`exCfgA` (which satisfies 0 < min_step_time ≤ base_time_step), iteration 7
executes (the guard holds before it), yet it neither ends the run (the guard
still holds afterwards), nor strictly halves the step size (the step size is
unchanged: it is doubled by the relaxation check and halved back by the
rejection), nor advances time (the time is unchanged). -/
theorem c10_counterexample :
    (0 < exCfgA.min_step_time ∧ exCfgA.min_step_time ≤ exCfgA.base_time_step) ∧
    loopGuard exCfgA (runLoop exCfgA 6 (initState exCfgA)) = true ∧
    loopGuard exCfgA (loopBody exCfgA (runLoop exCfgA 6 (initState exCfgA))) = true ∧
    (loopBody exCfgA (runLoop exCfgA 6 (initState exCfgA))).cur_step_size =
      (runLoop exCfgA 6 (initState exCfgA)).cur_step_size ∧
    (loopBody exCfgA (runLoop exCfgA 6 (initState exCfgA))).current_time =
      (runLoop exCfgA 6 (initState exCfgA)).current_time := by
  refine ⟨by decide, by decide, by decide, by decide, by decide⟩

end Pyn
